import Mathlib

/-!
Verification of the JumpTiger encrypted-tunnel implementation
(`local3.py`, `server3.py`, `monitor.py`) against its specification.

Bytes are modelled as natural numbers (< 256 where it matters).  The AES
block cipher itself is library code (PyCryptodome); the embedding is
parameterized by `F : List Nat → Nat`, the leading byte of the keyed AES
block encryption of the CFB shift register.  `AES.new(key, AES.MODE_CFB, iv)`
uses 8-bit CFB segments, so each plaintext byte is XORed with `F sr` and the
shift register is advanced by the ciphertext byte.  `AES.new` raises
`ValueError` when the IV is not exactly 16 bytes; fallible operations
therefore return `Option`.
-/

namespace JumpTiger

/-- CFB-8 encryption of a byte list: returns the ciphertext and the final
shift register.  Each step: `c = p ^^^ F sr`, new register `sr.drop 1 ++ [c]`. -/
def cfbEncrypt (F : List Nat → Nat) : List Nat → List Nat → List Nat × List Nat
  | sr, [] => ([], sr)
  | sr, p :: ps =>
    let c := p ^^^ F sr
    let r := cfbEncrypt F (sr.drop 1 ++ [c]) ps
    (c :: r.1, r.2)

/-- CFB-8 decryption: `p = c ^^^ F sr`, and the register is advanced by the
ciphertext byte `c`, exactly as in encryption. -/
def cfbDecrypt (F : List Nat → Nat) : List Nat → List Nat → List Nat × List Nat
  | sr, [] => ([], sr)
  | sr, c :: cs =>
    let p := c ^^^ F sr
    let r := cfbDecrypt F (sr.drop 1 ++ [c]) cs
    (p :: r.1, r.2)

/-- Sort key used by `Encryptor._get_table`: `int(a % (x + i) - a % i)`,
computed over the integers (`a` is the first little-endian u64 of
`md5(password)`, supplied as a parameter). -/
def tableKey (a i x : Nat) : Int :=
  ((a % (x + i) : Nat) : Int) - ((a % i : Nat) : Int)

/-- One pass of the loop in `_get_table`: a stable sort of the current table
by `tableKey a i`.  Python's `list.sort` is stable, as is `List.mergeSort`. -/
def sortPass (a i : Nat) (t : List Nat) : List Nat :=
  t.mergeSort (fun x y => decide (tableKey a i x ≤ tableKey a i y))

/-- Model of `Encryptor._get_table`: start from `range 256` and stably re-sort
for `i` in `range(1, 1024)`. -/
def getTable (a : Nat) : List Nat :=
  (List.range' 1 1023).foldl (fun t i => sortPass a i t) (List.range 256)

/-- Model of `bytes.maketrans(encrypt_table, bytes(range(256)))`: byte `c`
maps to the position of `c` in `encrypt_table` (bytes absent from the source
map to themselves under `maketrans`). -/
def makeDecryptTable (enc : List Nat) : List Nat :=
  (List.range 256).map (fun c => if c ∈ enc then enc.indexOf c else c)

/-- State of `Encryptor` (`local3.py` / `server3.py`, the two files are
identical).  `cipherSR` is the shift register of `self.cipher_iv`; `decipher`
is `None` until the first inbound 16 bytes arrive.  The random 16-byte IV and
the md5-derived sort seed `a` are parameters of the constructor. -/
structure Encryptor where
  method : String
  ivSent : Bool
  iv : List Nat
  cipherSR : List Nat
  decipher : Option (List Nat)
  encTable : List Nat
  decTable : List Nat
deriving Repr, DecidableEq

/-- Model of `Encryptor.__init__`. -/
def Encryptor.init (method : String) (iv : List Nat) (a : Nat) : Encryptor :=
  if method = "aes-256-cfb" then
    { method := method, ivSent := false, iv := iv, cipherSR := iv,
      decipher := none, encTable := [], decTable := [] }
  else
    let t := getTable a
    { method := method, ivSent := false, iv := [], cipherSR := [],
      decipher := none, encTable := t, decTable := makeDecryptTable t }

/-- Model of `Encryptor.encrypt`: on the first call the 16-byte IV is
prepended; afterwards the CFB stream continues.  The table method translates
each byte through `encrypt_table`. -/
def Encryptor.encrypt (F : List Nat → Nat) (e : Encryptor) (data : List Nat) :
    Encryptor × List Nat :=
  if e.method = "aes-256-cfb" then
    if e.ivSent = false then
      let r := cfbEncrypt F e.cipherSR data
      ({ e with ivSent := true, cipherSR := r.2 }, e.iv ++ r.1)
    else
      let r := cfbEncrypt F e.cipherSR data
      ({ e with cipherSR := r.2 }, r.1)
  else
    (e, data.map (fun b => e.encTable.getD b 0))

/-- Model of `Encryptor.decrypt`.  While `decipher` is `None` the code takes
`data[:16]` as IV and calls `AES.new`, which raises `ValueError` unless that
slice is exactly 16 bytes; the raise is modelled by `none`. -/
def Encryptor.decrypt (F : List Nat → Nat) (e : Encryptor) (data : List Nat) :
    Option (Encryptor × List Nat) :=
  if e.method = "aes-256-cfb" then
    match e.decipher with
    | none =>
      let iv := data.take 16
      if iv.length = 16 then
        let r := cfbDecrypt F iv (data.drop 16)
        some ({ e with iv := iv, decipher := some r.2 }, r.1)
      else none
    | some sr =>
      let r := cfbDecrypt F sr data
      some ({ e with decipher := some r.2 }, r.1)
  else
    some (e, data.map (fun b => e.decTable.getD b 0))

/-- Feed a partition of a plaintext to `encrypt`, concatenating the emitted
ciphertext chunks. -/
def encryptChunks (F : List Nat → Nat) (e : Encryptor) :
    List (List Nat) → Encryptor × List Nat
  | [] => (e, [])
  | d :: ds =>
    let r := e.encrypt F d
    let rest := encryptChunks F r.1 ds
    (rest.1, r.2 ++ rest.2)

/-- Feed a partition of a ciphertext stream to `decrypt`, concatenating the
recovered plaintext chunks; any raised `ValueError` aborts the run. -/
def decryptChunks (F : List Nat → Nat) (e : Encryptor) :
    List (List Nat) → Option (Encryptor × List Nat)
  | [] => some (e, [])
  | d :: ds =>
    match e.decrypt F d with
    | none => none
    | some r =>
      match decryptChunks F r.1 ds with
      | none => none
      | some rest => some (rest.1, r.2 ++ rest.2)

theorem cfbEncrypt_append (F : List Nat → Nat) (a : List Nat) :
    ∀ sr b, cfbEncrypt F sr (a ++ b) =
      ((cfbEncrypt F sr a).1 ++ (cfbEncrypt F (cfbEncrypt F sr a).2 b).1,
        (cfbEncrypt F (cfbEncrypt F sr a).2 b).2) := by
  induction a with
  | nil => intro sr b; simp [cfbEncrypt]
  | cons p ps ih => intro sr b; simp [cfbEncrypt, ih]

theorem cfbDecrypt_append (F : List Nat → Nat) (a : List Nat) :
    ∀ sr b, cfbDecrypt F sr (a ++ b) =
      ((cfbDecrypt F sr a).1 ++ (cfbDecrypt F (cfbDecrypt F sr a).2 b).1,
        (cfbDecrypt F (cfbDecrypt F sr a).2 b).2) := by
  induction a with
  | nil => intro sr b; simp [cfbDecrypt]
  | cons p ps ih => intro sr b; simp [cfbDecrypt, ih]

/-- CFB round trip: decrypting the ciphertext from the same initial shift
register recovers the plaintext and reaches the same final register. -/
theorem cfbDecrypt_cfbEncrypt (F : List Nat → Nat) (p : List Nat) :
    ∀ sr, cfbDecrypt F sr (cfbEncrypt F sr p).1 = (p, (cfbEncrypt F sr p).2) := by
  induction p with
  | nil => intro sr; simp [cfbEncrypt, cfbDecrypt]
  | cons b bs ih =>
    intro sr
    simp only [cfbEncrypt, cfbDecrypt, ih]
    simp [Nat.xor_cancel_right]

theorem cfbEncrypt_length (F : List Nat → Nat) (p : List Nat) :
    ∀ sr, (cfbEncrypt F sr p).1.length = p.length := by
  induction p with
  | nil => intro sr; simp [cfbEncrypt]
  | cons b bs ih => intro sr; simp [cfbEncrypt, ih]

theorem cfbDecrypt_length (F : List Nat → Nat) (p : List Nat) :
    ∀ sr, (cfbDecrypt F sr p).1.length = p.length := by
  induction p with
  | nil => intro sr; simp [cfbDecrypt]
  | cons b bs ih => intro sr; simp [cfbDecrypt, ih]

theorem encryptChunks_post (F : List Nat → Nat) (ds : List (List Nat)) :
    ∀ e : Encryptor, e.method = "aes-256-cfb" → e.ivSent = true →
      encryptChunks F e ds =
        ({ e with cipherSR := (cfbEncrypt F e.cipherSR ds.flatten).2 },
          (cfbEncrypt F e.cipherSR ds.flatten).1) := by
  induction ds with
  | nil => intro e hm hs; simp [encryptChunks, cfbEncrypt]
  | cons d ds ih =>
    intro e hm hs
    simp only [encryptChunks, Encryptor.encrypt, hm, hs, if_true, reduceIte,
      Bool.true_eq_false, if_false]
    rw [ih _ (by simp [hm]) (by simp [hs])]
    simp [cfbEncrypt_append]

theorem encryptChunks_fresh_out (F : List Nat → Nat) (iv : List Nat) (a : Nat)
    (d : List Nat) (ds : List (List Nat)) :
    (encryptChunks F (Encryptor.init "aes-256-cfb" iv a) (d :: ds)).2 =
      iv ++ (cfbEncrypt F iv ((d :: ds).flatten)).1 := by
  simp only [encryptChunks, Encryptor.init, reduceIte, Encryptor.encrypt]
  rw [encryptChunks_post F ds _ (by simp) (by simp)]
  simp [cfbEncrypt_append]

theorem decryptChunks_post (F : List Nat → Nat) (ds : List (List Nat)) :
    ∀ (e : Encryptor) (sr : List Nat), e.method = "aes-256-cfb" →
      e.decipher = some sr →
      decryptChunks F e ds =
        some ({ e with decipher := some (cfbDecrypt F sr ds.flatten).2 },
          (cfbDecrypt F sr ds.flatten).1) := by
  induction ds with
  | nil => intro e sr hm hd; simp [decryptChunks, cfbDecrypt, ← hd]
  | cons d ds ih =>
    intro e sr hm hd
    simp only [decryptChunks, Encryptor.decrypt, hm, reduceIte, hd]
    rw [ih _ (cfbDecrypt F sr d).2 (by simp [hm]) (by simp)]
    simp [cfbDecrypt_append]

/-- C1, amended: the cipher session round-trips under arbitrary chunking of the
plaintext and any chunking of the ciphertext stream whose first chunk delivered
to `decrypt` contains at least the full 16-byte IV.  (The claim as stated, with
a 15-byte first chunk, fails: see `aes_roundtrip_15_1_fails`.) -/
theorem aes_roundtrip_chunked (F : List Nat → Nat) (iv iv2 : List Nat) (a a2 : Nat)
    (Ps : List (List Nat)) (c0 : List Nat) (cs : List (List Nat))
    (hiv : iv.length = 16) (hc0 : 16 ≤ c0.length)
    (hjoin : ((c0 :: cs).flatten) =
      (encryptChunks F (Encryptor.init "aes-256-cfb" iv a) Ps).2) :
    ∃ e, decryptChunks F (Encryptor.init "aes-256-cfb" iv2 a2) (c0 :: cs) =
      some (e, Ps.flatten) := by
  match Ps with
  | [] =>
    exfalso
    simp only [encryptChunks] at hjoin
    have h := congrArg List.length hjoin
    simp only [List.flatten_cons, List.length_append, List.length_nil] at h
    omega
  | P :: Ps' =>
    rw [encryptChunks_fresh_out, List.flatten_cons] at hjoin
    -- hjoin : c0 ++ cs.flatten = iv ++ C with C the full CFB ciphertext
    have htake : c0.take 16 = iv := by
      have h1 : (c0 ++ cs.flatten).take 16 = c0.take 16 :=
        List.take_append_of_le_length hc0
      have h2 : (iv ++ (cfbEncrypt F iv ((P :: Ps').flatten)).1).take 16 = iv := by
        rw [← hiv]; exact List.take_left iv _
      rw [← h1, hjoin, h2]
    have hsplit : c0 = iv ++ c0.drop 16 := by
      conv_lhs => rw [← List.take_append_drop 16 c0]
      rw [htake]
    have htail : c0.drop 16 ++ cs.flatten =
        (cfbEncrypt F iv ((P :: Ps').flatten)).1 := by
      have h3 : iv ++ (c0.drop 16 ++ cs.flatten) =
          iv ++ (cfbEncrypt F iv ((P :: Ps').flatten)).1 := by
        rw [← List.append_assoc, ← hsplit, hjoin]
      exact List.append_cancel_left h3
    -- run the first decrypt call, then the remaining chunks
    have hfirst : (Encryptor.init "aes-256-cfb" iv2 a2).decrypt F c0 =
        some ({ Encryptor.init "aes-256-cfb" iv2 a2 with
                    iv := iv,
                    decipher := some (cfbDecrypt F iv (c0.drop 16)).2 },
              (cfbDecrypt F iv (c0.drop 16)).1) := by
      simp only [Encryptor.decrypt, Encryptor.init, reduceIte, htake, hiv]
    have hdec : (cfbDecrypt F iv (c0.drop 16 ++ cs.flatten)).1 =
        (cfbDecrypt F iv (c0.drop 16)).1 ++
          (cfbDecrypt F (cfbDecrypt F iv (c0.drop 16)).2 cs.flatten).1 := by
      rw [cfbDecrypt_append]
    refine ⟨?_, ?_⟩
    rotate_left
    simp only [decryptChunks, hfirst]
    rw [decryptChunks_post F cs _ (cfbDecrypt F iv (c0.drop 16)).2
      (by simp [Encryptor.init]) (by simp)]
    dsimp only
    rw [← hdec, htail, cfbDecrypt_cfbEncrypt]
    exact rfl

/-- C1 witness: a concrete two-chunk plaintext, encrypted in two chunks and
decrypted as a 17-byte chunk followed by a 1-byte chunk, yields the plaintext. -/
theorem aes_roundtrip_chunked_witness :
    ∃ e, decryptChunks (fun _ => 0)
        (Encryptor.init "aes-256-cfb" (List.replicate 16 3) 7)
        [List.replicate 16 0 ++ [1], [2]] = some (e, [1, 2]) :=
  aes_roundtrip_chunked (fun _ => 0) (List.replicate 16 0) (List.replicate 16 3)
    0 7 [[1], [2]] (List.replicate 16 0 ++ [1]) [[2]]
    (by decide) (by decide) (by decide)

/-- C1 counterexample: feeding the ciphertext stream of plaintext `[1]` to a
fresh ingress session as a 15-byte chunk, then a 1-byte chunk, then the rest
does not reproduce the plaintext — the first call constructs `AES.new` with a
truncated 15-byte IV, which raises `ValueError` (modelled as `none`), whereas
the claim requires the concatenated outputs to equal the plaintext. -/
theorem aes_roundtrip_15_1_fails :
    decryptChunks (fun _ => 0)
      (Encryptor.init "aes-256-cfb" (List.replicate 16 3) 7)
      [List.replicate 15 0, [0], [1]] = none ∧
    (encryptChunks (fun _ => 0)
      (Encryptor.init "aes-256-cfb" (List.replicate 16 0) 0) [[1]]).2 =
      List.replicate 15 0 ++ [0] ++ [1] := by
  constructor
  · decide
  · decide

/-- C2: when `decipher` is still `None` and `decrypt` receives fewer than 16
bytes, the session delivers no output and constructs no decrypter: `AES.new`
rejects the truncated IV (`ValueError`), modelled as `none`. -/
theorem decrypt_short_iv (F : List Nat → Nat) (e : Encryptor) (data : List Nat)
    (hm : e.method = "aes-256-cfb") (hd : e.decipher = none)
    (hl : data.length < 16) :
    e.decrypt F data = none := by
  simp only [Encryptor.decrypt, hm, reduceIte, hd]
  rw [if_neg]
  simp only [List.length_take]
  omega

/-- C2 witness: a fresh ingress session fed 3 bytes signals the error. -/
theorem decrypt_short_iv_witness :
    Encryptor.decrypt (fun _ => 0)
      (Encryptor.init "aes-256-cfb" (List.replicate 16 0) 0) [1, 2, 3] = none :=
  decrypt_short_iv (fun _ => 0) _ [1, 2, 3] (by decide) (by decide) (by decide)

/-! Model of `monitor.py`: `ConnectionStats` and its operations.  Wall-clock
values (`time.time()`) are passed as parameters.  The `connections` dict is an
insertion-ordered association list: assigning an existing key replaces its
record in place, a new key is appended.  `active_connections` is an `Int`
because `close_connection` decrements it unconditionally. -/

/-- Record stored per connection by `ConnectionStats.add_connection`. -/
structure ConnRecord where
  id : String
  host : String
  port : Nat
  start_time : Nat
  bytes_in : Nat
  bytes_out : Nat
  status : String
  end_time : Option Nat
deriving Repr, DecidableEq

/-- State of the `ConnectionStats` singleton: the `connections` dict plus the
`stats` counters (`uptime`/`start_time` are wall-clock only and omitted). -/
structure ConnectionStats where
  connections : List (String × ConnRecord)
  total_connections : Nat
  active_connections : Int
  total_bytes_in : Nat
  total_bytes_out : Nat
deriving Repr, DecidableEq

/-- In-place mutation of the record stored under key `k`. -/
def dictUpdate (l : List (String × ConnRecord)) (k : String)
    (f : ConnRecord → ConnRecord) : List (String × ConnRecord) :=
  l.map (fun p => if p.1 = k then (p.1, f p.2) else p)

/-- Python dict assignment `d[k] = v`: replace in place if present, else append. -/
def dictInsert (l : List (String × ConnRecord)) (k : String) (v : ConnRecord) :
    List (String × ConnRecord) :=
  if (l.lookup k).isSome then dictUpdate l k (fun _ => v) else l ++ [(k, v)]

/-- Model of `ConnectionStats.reset` (also the constructor's state). -/
def ConnectionStats.reset : ConnectionStats :=
  { connections := [], total_connections := 0, active_connections := 0,
    total_bytes_in := 0, total_bytes_out := 0 }

/-- Model of `ConnectionStats.add_connection`. -/
def ConnectionStats.add_connection (s : ConnectionStats) (client_id : String)
    (host : String) (port : Nat) (now : Nat) : ConnectionStats :=
  { s with
    total_connections := s.total_connections + 1,
    active_connections := s.active_connections + 1,
    connections := dictInsert s.connections client_id
      { id := client_id, host := host, port := port, start_time := now,
        bytes_in := 0, bytes_out := 0, status := "active", end_time := none } }

/-- Model of `ConnectionStats.close_connection`. -/
def ConnectionStats.close_connection (s : ConnectionStats) (client_id : String)
    (now : Nat) : ConnectionStats :=
  if (s.connections.lookup client_id).isSome then
    { s with
      connections := dictUpdate s.connections client_id
        (fun r => { r with status := "closed", end_time := some now }),
      active_connections := s.active_connections - 1 }
  else s

/-- Model of `ConnectionStats.update_traffic`. -/
def ConnectionStats.update_traffic (s : ConnectionStats) (client_id : String)
    (bytes_in bytes_out : Nat) : ConnectionStats :=
  if (s.connections.lookup client_id).isSome then
    { s with
      connections := dictUpdate s.connections client_id
        (fun r => { r with bytes_in := r.bytes_in + bytes_in,
                           bytes_out := r.bytes_out + bytes_out }),
      total_bytes_in := s.total_bytes_in + bytes_in,
      total_bytes_out := s.total_bytes_out + bytes_out }
  else s

/-- One call to the accounting sink. -/
inductive StatsOp where
  | add (id : String) (host : String) (port : Nat) (now : Nat)
  | update (id : String) (bin bout : Nat)
  | close (id : String) (now : Nat)
  | reset
deriving Repr, DecidableEq

/-- Apply one accounting call. -/
def applyOp (s : ConnectionStats) : StatsOp → ConnectionStats
  | .add id host port now => s.add_connection id host port now
  | .update id bin bout => s.update_traffic id bin bout
  | .close id now => s.close_connection id now
  | .reset => ConnectionStats.reset

/-- Run a sequence of accounting calls. -/
def execOps (s : ConnectionStats) (ops : List StatsOp) : ConnectionStats :=
  ops.foldl applyOp s

/-- Sum of `bytes_in` over the stored records. -/
def sumBytesIn (l : List (String × ConnRecord)) : Nat :=
  (l.map (fun p => p.2.bytes_in)).sum

/-- Sum of `bytes_out` over the stored records. -/
def sumBytesOut (l : List (String × ConnRecord)) : Nat :=
  (l.map (fun p => p.2.bytes_out)).sum

/-- Number of stored records whose status is `"active"`. -/
def countActive (l : List (String × ConnRecord)) : Nat :=
  (l.filter (fun p => p.2.status == "active")).length

/-- Consistency invariant of the sink, together with key uniqueness of the
dict (Python dict keys are unique by construction). -/
def StatsInv (s : ConnectionStats) : Prop :=
  (s.connections.map Prod.fst).Nodup ∧
  s.total_bytes_in = sumBytesIn s.connections ∧
  s.total_bytes_out = sumBytesOut s.connections ∧
  s.active_connections = (countActive s.connections : Int)

/-- Legality of one call in the sense of claim C9 as amended: an `add` never
reuses a currently stored id, and a stored id is closed at most once. -/
def legalStep (s : ConnectionStats) : StatsOp → Bool
  | .add id _ _ _ => (s.connections.lookup id).isNone
  | .close id _ =>
    match s.connections.lookup id with
    | some r => r.status == "active"
    | none => true
  | _ => true

/-- Legality of a call sequence from a given state. -/
def legalFrom (s : ConnectionStats) : List StatsOp → Bool
  | [] => true
  | op :: ops => legalStep s op && legalFrom (applyOp s op) ops

theorem lookup_none_iff (l : List (String × ConnRecord)) (k : String) :
    l.lookup k = none ↔ k ∉ l.map Prod.fst := by
  simp only [List.lookup_eq_none_iff, List.mem_map, not_exists, not_and,
    bne_iff_ne, ne_eq]
  constructor
  · intro h p hp he
    exact h p hp he.symm
  · intro h p hp he
    exact h p hp he.symm

/-- Generic weight sum over the stored records. -/
def sumW (g : ConnRecord → Nat) (l : List (String × ConnRecord)) : Nat :=
  (l.map (fun p => g p.2)).sum

theorem dictUpdate_not_mem (k : String) (f : ConnRecord → ConnRecord) :
    ∀ l : List (String × ConnRecord), k ∉ l.map Prod.fst → dictUpdate l k f = l := by
  intro l
  induction l with
  | nil => intro h; rfl
  | cons p t ih =>
    intro h
    simp only [List.map_cons, List.mem_cons] at h
    push_neg at h
    simp only [dictUpdate, List.map_cons]
    rw [if_neg (fun he => h.1 he.symm)]
    have := ih h.2
    simp only [dictUpdate] at this
    rw [this]

theorem dictUpdate_keys (l : List (String × ConnRecord)) (k : String)
    (f : ConnRecord → ConnRecord) :
    (dictUpdate l k f).map Prod.fst = l.map Prod.fst := by
  unfold dictUpdate
  rw [List.map_map]
  apply List.map_congr_left
  intro p hp
  by_cases h : p.1 = k <;> simp [h]

theorem sumW_dictUpdate (g : ConnRecord → Nat) (k : String)
    (f : ConnRecord → ConnRecord) :
    ∀ (l : List (String × ConnRecord)) (r : ConnRecord),
      (l.map Prod.fst).Nodup → l.lookup k = some r →
      sumW g (dictUpdate l k f) + g r = sumW g l + g (f r) := by
  intro l
  induction l with
  | nil => intro r _ hr; simp at hr
  | cons p t ih =>
    intro r hnd hr
    rcases p with ⟨k2, v⟩
    simp only [List.map_cons, List.nodup_cons] at hnd
    by_cases h : k = k2
    · subst h
      rw [List.lookup_cons_self] at hr
      injection hr with hr
      subst hr
      have ht := dictUpdate_not_mem k f t hnd.1
      simp only [dictUpdate] at ht
      simp only [dictUpdate, List.map_cons, sumW, List.sum_cons, ht]
      simp only [eq_self_iff_true, if_true]
      omega
    · have hbeq : (k == k2) = false := by simpa using h
      rw [List.lookup_cons, hbeq] at hr
      simp only [dictUpdate, List.map_cons]
      rw [if_neg (fun he => h he.symm)]
      simp only [sumW, List.map_cons, List.sum_cons]
      have := ih r hnd.2 hr
      simp only [sumW, dictUpdate] at this
      omega

theorem countActive_eq_sumW (l : List (String × ConnRecord)) :
    countActive l = sumW (fun r => if r.status == "active" then 1 else 0) l := by
  induction l with
  | nil => rfl
  | cons p t ih =>
    simp only [countActive, sumW, List.filter_cons, List.map_cons,
      List.sum_cons] at ih ⊢
    cases h : (p.2.status == "active")
    · rw [if_neg (by simp [h]), if_neg (by simp [h])]
      omega
    · rw [if_pos (by simp [h]), if_pos (by simp [h])]
      simp only [List.length_cons]
      omega

theorem update_traffic_unknown (s : ConnectionStats) (id : String)
    (bin bout : Nat) (h : s.connections.lookup id = none) :
    s.update_traffic id bin bout = s := by
  simp [ConnectionStats.update_traffic, h]

theorem close_connection_unknown (s : ConnectionStats) (id : String) (now : Nat)
    (h : s.connections.lookup id = none) :
    s.close_connection id now = s := by
  simp [ConnectionStats.close_connection, h]

theorem statsInv_step (s : ConnectionStats) (op : StatsOp)
    (hInv : StatsInv s) (hLegal : legalStep s op = true) :
    StatsInv (applyOp s op) := by
  obtain ⟨hnd, hin, hout, hact⟩ := hInv
  cases op with
  | reset =>
    simp [applyOp, ConnectionStats.reset, StatsInv, sumBytesIn, sumBytesOut,
      countActive]
  | add id host port now =>
    simp only [legalStep, Option.isNone_iff_eq_none] at hLegal
    have hmem : id ∉ s.connections.map Prod.fst :=
      (lookup_none_iff _ _).1 hLegal
    refine ⟨?_, ?_, ?_, ?_⟩ <;>
      simp only [applyOp, ConnectionStats.add_connection, dictInsert, hLegal,
        Option.isSome_none, Bool.false_eq_true, if_false]
    · simp [List.nodup_append, hnd, hmem]
    · simp [sumBytesIn, hin]
    · simp [sumBytesOut, hout]
    · simp only [hact, countActive, List.filter_append, List.length_append]
      norm_num
  | update id bin bout =>
    cases hl : s.connections.lookup id with
    | none =>
      have hs := update_traffic_unknown s id bin bout hl
      simp only [applyOp, hs]
      exact ⟨hnd, hin, hout, hact⟩
    | some r =>
      have hbin := sumW_dictUpdate (fun c => c.bytes_in) id
        (fun c => { c with bytes_in := c.bytes_in + bin,
                           bytes_out := c.bytes_out + bout })
        s.connections r hnd hl
      have hbout := sumW_dictUpdate (fun c => c.bytes_out) id
        (fun c => { c with bytes_in := c.bytes_in + bin,
                           bytes_out := c.bytes_out + bout })
        s.connections r hnd hl
      have hcnt := sumW_dictUpdate (fun c => if c.status == "active" then 1 else 0)
        id (fun c => { c with bytes_in := c.bytes_in + bin,
                              bytes_out := c.bytes_out + bout })
        s.connections r hnd hl
      dsimp only at hbin hbout hcnt
      refine ⟨?_, ?_, ?_, ?_⟩ <;>
        simp only [applyOp, ConnectionStats.update_traffic, hl,
          Option.isSome_some, if_true, reduceIte]
      · simpa [dictUpdate_keys] using hnd
      · simp only [sumBytesIn, sumW] at hbin hin ⊢
        omega
      · simp only [sumBytesOut, sumW] at hbout hout ⊢
        omega
      · simp only [countActive_eq_sumW, sumW] at hcnt hact ⊢
        omega
  | close id now =>
    cases hl : s.connections.lookup id with
    | none =>
      have hs := close_connection_unknown s id now hl
      simp only [applyOp, hs]
      exact ⟨hnd, hin, hout, hact⟩
    | some r =>
      simp only [legalStep, hl, beq_iff_eq] at hLegal
      have hbin := sumW_dictUpdate (fun c => c.bytes_in) id
        (fun c => { c with status := "closed", end_time := some now })
        s.connections r hnd hl
      have hbout := sumW_dictUpdate (fun c => c.bytes_out) id
        (fun c => { c with status := "closed", end_time := some now })
        s.connections r hnd hl
      have hcnt := sumW_dictUpdate (fun c => if c.status == "active" then 1 else 0)
        id (fun c => { c with status := "closed", end_time := some now })
        s.connections r hnd hl
      dsimp only at hbin hbout hcnt
      have hr1 : (if r.status == "active" then (1 : Nat) else 0) = 1 := by
        rw [hLegal]
        rfl
      have hr0 : (if ("closed" : String) == "active" then (1 : Nat) else 0) = 0 := rfl
      rw [hr1, hr0] at hcnt
      refine ⟨?_, ?_, ?_, ?_⟩ <;>
        simp only [applyOp, ConnectionStats.close_connection, hl,
          Option.isSome_some, if_true, reduceIte]
      · simpa [dictUpdate_keys] using hnd
      · simp only [sumBytesIn, sumW] at hbin hin ⊢
        omega
      · simp only [sumBytesOut, sumW] at hbout hout ⊢
        omega
      · simp only [countActive_eq_sumW, sumW] at hcnt hact ⊢
        omega

theorem statsInv_reset : StatsInv ConnectionStats.reset := by
  refine ⟨?_, ?_, ?_, ?_⟩ <;>
    simp [ConnectionStats.reset, sumBytesIn, sumBytesOut, countActive]

theorem statsInv_exec : ∀ (ops : List StatsOp) (s : ConnectionStats),
    StatsInv s → legalFrom s ops = true → StatsInv (execOps s ops) := by
  intro ops
  induction ops with
  | nil => intro s h _; exact h
  | cons op ops ih =>
    intro s h hl
    simp only [legalFrom, Bool.and_eq_true] at hl
    exact ih (applyOp s op) (statsInv_step s op h hl.1) hl.2

/-- C9, amended: over any sequence of accounting calls in which `add` never
reuses a currently stored id and a stored record is closed at most once, the
sink keeps `total_bytes_in`/`total_bytes_out` equal to the sums over stored
records and `active_connections` equal to the number of records with status
`"active"`; `update_traffic` and `close_connection` on an unknown id leave the
state unchanged.  (The claim as stated, which allows duplicate `add` ids,
fails: see `connection_stats_dup_add_breaks`.) -/
theorem connection_stats_invariant (ops : List StatsOp)
    (h : legalFrom ConnectionStats.reset ops = true) :
    ((execOps ConnectionStats.reset ops).total_bytes_in =
        sumBytesIn (execOps ConnectionStats.reset ops).connections ∧
      (execOps ConnectionStats.reset ops).total_bytes_out =
        sumBytesOut (execOps ConnectionStats.reset ops).connections ∧
      (execOps ConnectionStats.reset ops).active_connections =
        (countActive (execOps ConnectionStats.reset ops).connections : Int)) ∧
    ∀ (s : ConnectionStats) (id : String) (bin bout now : Nat),
      s.connections.lookup id = none →
      s.update_traffic id bin bout = s ∧ s.close_connection id now = s := by
  have hh := statsInv_exec ops ConnectionStats.reset statsInv_reset h
  exact ⟨⟨hh.2.1, hh.2.2.1, hh.2.2.2⟩, fun s id bin bout now hnone =>
    ⟨update_traffic_unknown s id bin bout hnone,
      close_connection_unknown s id now hnone⟩⟩

/-- C9 witness: a concrete add/update/close sequence keeps the invariant. -/
theorem connection_stats_invariant_witness :
    (execOps ConnectionStats.reset
        [StatsOp.add "a" "h" 80 0, StatsOp.update "a" 3 4,
          StatsOp.close "a" 5]).total_bytes_in =
      sumBytesIn (execOps ConnectionStats.reset
        [StatsOp.add "a" "h" 80 0, StatsOp.update "a" 3 4,
          StatsOp.close "a" 5]).connections ∧
    (execOps ConnectionStats.reset
        [StatsOp.add "a" "h" 80 0, StatsOp.update "a" 3 4,
          StatsOp.close "a" 5]).total_bytes_out =
      sumBytesOut (execOps ConnectionStats.reset
        [StatsOp.add "a" "h" 80 0, StatsOp.update "a" 3 4,
          StatsOp.close "a" 5]).connections ∧
    (execOps ConnectionStats.reset
        [StatsOp.add "a" "h" 80 0, StatsOp.update "a" 3 4,
          StatsOp.close "a" 5]).active_connections =
      (countActive (execOps ConnectionStats.reset
        [StatsOp.add "a" "h" 80 0, StatsOp.update "a" 3 4,
          StatsOp.close "a" 5]).connections : Int) :=
  (connection_stats_invariant
    [StatsOp.add "a" "h" 80 0, StatsOp.update "a" 3 4, StatsOp.close "a" 5]
    (by decide)).1

/-- C9 counterexample: the claim as stated does not exclude calling
`add_connection` twice with the same id.  Doing so increments
`active_connections` twice while the dict keeps a single record, so
`active_connections` (2) no longer equals the number of records with status
`"active"` (1), although `close_connection` was never invoked at all. -/
theorem connection_stats_dup_add_breaks :
    (execOps ConnectionStats.reset
      [StatsOp.add "a" "h" 80 0, StatsOp.add "a" "h" 80 0]).active_connections = 2 ∧
    countActive (execOps ConnectionStats.reset
      [StatsOp.add "a" "h" 80 0, StatsOp.add "a" "h" 80 0]).connections = 1 := by
  constructor
  · decide
  · decide

/-! Models of the relay loops (`SocksProxy.handle_tcp` in `local3.py` and
`Socks5Server.handle_tcp` in `server3.py`).  A schedule is a list of
readiness events, each carrying the bytes `recv` returns; zero bytes is EOF.
Socket writes, socket closes, and the outbound dial are recorded as events.
Exceptions (`ValueError` from a truncated IV, the short-send raise) terminate
the loop; the `finally` block then closes both sockets. -/

/-- Observable I/O action of the client (`sock` = user, `remote` = server) or
of the server (`sock` = peer, read as `sendUser`; `remote` = origin). -/
inductive Ev where
  | sendUser (bs : List Nat)
  | connectRemote
  | sendRemote (bs : List Nat)
  | closeUser
  | closeRemote
deriving Repr, DecidableEq

/-- One readiness event of the client relay loop. -/
inductive RelayOp where
  | fromUser (data : List Nat)
  | fromRemote (data : List Nat)
deriving Repr, DecidableEq

/-- One readiness event of the server relay loop. -/
inductive ServerOp where
  | fromPeer (data : List Nat)
  | fromOrigin (data : List Nat)
deriving Repr, DecidableEq

/-- Why the relay loop ended: EOF `break`, the short-send raise
(`raise Exception` after `send_all`), or `ValueError` from `decrypt`. -/
inductive RelayExit where
  | eof
  | sendShort
  | decryptError
deriving Repr, DecidableEq

/-- Model of the loop body of `SocksProxy.handle_tcp` (`local3.py` lines
188-213).  Returns the final accounting state, the emitted events, and the
exit cause (`none` while the schedule leaves the loop still running). -/
def clientRelayRun (F : List Nat → Nat) (cid : String) :
    Encryptor → ConnectionStats → List RelayOp →
      ConnectionStats × List Ev × Option RelayExit
  | _, st, [] => (st, [], none)
  | e, st, op :: ops =>
    match op with
    | .fromUser data =>
      if data.length = 0 then (st, [Ev.closeUser, Ev.closeRemote], some .eof)
      else
        let r := e.encrypt F data
        if r.2.length < data.length then
          (st, [Ev.sendRemote r.2, Ev.closeUser, Ev.closeRemote], some .sendShort)
        else
          let st2 := st.update_traffic cid 0 r.2.length
          let rest := clientRelayRun F cid r.1 st2 ops
          (rest.1, Ev.sendRemote r.2 :: rest.2.1, rest.2.2)
    | .fromRemote data =>
      if data.length = 0 then (st, [Ev.closeUser, Ev.closeRemote], some .eof)
      else
        match e.decrypt F data with
        | none => (st, [Ev.closeUser, Ev.closeRemote], some .decryptError)
        | some r =>
          if r.2.length < data.length then
            (st, [Ev.sendUser r.2, Ev.closeUser, Ev.closeRemote], some .sendShort)
          else
            let st2 := st.update_traffic cid r.2.length 0
            let rest := clientRelayRun F cid r.1 st2 ops
            (rest.1, Ev.sendUser r.2 :: rest.2.1, rest.2.2)

/-- Model of `SocksProxy.handle_tcp`: registers the connection in the
accounting sink, then runs the relay loop.  No exit path ever calls
`close_connection`. -/
def clientHandleTcp (F : List Nat → Nat) (cid host : String) (port now : Nat)
    (e : Encryptor) (st : ConnectionStats) (ops : List RelayOp) :
    ConnectionStats × List Ev × Option RelayExit :=
  clientRelayRun F cid e (st.add_connection cid host port now) ops

theorem lookup_dictUpdate (k : String) (f : ConnRecord → ConnRecord) (id : String) :
    ∀ l : List (String × ConnRecord),
      (dictUpdate l k f).lookup id =
        (l.lookup id).map (fun r => if id = k then f r else r) := by
  intro l
  induction l with
  | nil => rfl
  | cons p t ih =>
    rcases p with ⟨k2, v⟩
    simp only [dictUpdate] at ih
    by_cases h2 : k2 = k
    · subst h2
      by_cases hid : id = k2
      · subst hid
        simp [dictUpdate]
      · have hbeq : (id == k2) = false := by simpa using hid
        simp [dictUpdate, List.lookup_cons, hbeq, ih]
    · by_cases hid : id = k2
      · subst hid
        simp [dictUpdate, h2]
      · have hbeq : (id == k2) = false := by simpa using hid
        simp [dictUpdate, List.lookup_cons, hbeq, h2, ih]

theorem lookup_dictInsert_self (l : List (String × ConnRecord)) (k : String)
    (v : ConnRecord) : (dictInsert l k v).lookup k = some v := by
  by_cases h : (l.lookup k).isSome
  · obtain ⟨r, hr⟩ := Option.isSome_iff_exists.1 h
    simp [dictInsert, h, lookup_dictUpdate, hr]
  · have hn : l.lookup k = none := Option.not_isSome_iff_eq_none.1 h
    simp [dictInsert, h, List.lookup_append, hn]

/-- The pair of fields `close_connection` would finalize. -/
def statusOf (s : ConnectionStats) (id : String) : Option (String × Option Nat) :=
  (s.connections.lookup id).map (fun r => (r.status, r.end_time))

theorem update_traffic_statusOf (s : ConnectionStats) (cid : String)
    (b1 b2 : Nat) (id : String) :
    statusOf (s.update_traffic cid b1 b2) id = statusOf s id := by
  cases h : (s.connections.lookup cid).isSome with
  | false => simp [ConnectionStats.update_traffic, h]
  | true =>
    simp only [ConnectionStats.update_traffic, h, if_true, reduceIte, statusOf,
      lookup_dictUpdate]
    cases s.connections.lookup id with
    | none => rfl
    | some r =>
      by_cases hid : id = cid <;> simp [hid]

theorem clientRelayRun_statusOf (F : List Nat → Nat) (cid : String) :
    ∀ (ops : List RelayOp) (e : Encryptor) (st : ConnectionStats) (id : String),
      statusOf (clientRelayRun F cid e st ops).1 id = statusOf st id := by
  intro ops
  induction ops with
  | nil => intro e st id; rfl
  | cons op ops ih =>
    intro e st id
    cases op with
    | fromUser data =>
      by_cases h0 : data.length = 0
      · simp [clientRelayRun, h0]
      · by_cases h1 : (e.encrypt F data).2.length < data.length
        · simp [clientRelayRun, h0, h1]
        · simp [clientRelayRun, h0, h1, ih, update_traffic_statusOf]
    | fromRemote data =>
      by_cases h0 : data.length = 0
      · simp [clientRelayRun, h0]
      · cases hd : e.decrypt F data with
        | none => simp [clientRelayRun, h0, hd]
        | some r =>
          by_cases h1 : r.2.length < data.length
          · simp [clientRelayRun, h0, hd, h1]
          · simp [clientRelayRun, h0, hd, h1, ih, update_traffic_statusOf]

theorem clientRelayRun_closes (F : List Nat → Nat) (cid : String) :
    ∀ (ops : List RelayOp) (e : Encryptor) (st : ConnectionStats) (ex : RelayExit),
      (clientRelayRun F cid e st ops).2.2 = some ex →
      Ev.closeUser ∈ (clientRelayRun F cid e st ops).2.1 ∧
        Ev.closeRemote ∈ (clientRelayRun F cid e st ops).2.1 := by
  intro ops
  induction ops with
  | nil => intro e st ex hex; simp [clientRelayRun] at hex
  | cons op ops ih =>
    intro e st ex hex
    cases op with
    | fromUser data =>
      by_cases h0 : data.length = 0
      · simp [clientRelayRun, h0]
      · by_cases h1 : (e.encrypt F data).2.length < data.length
        · simp [clientRelayRun, h0, h1]
        · simp only [clientRelayRun, h0, h1, if_false, reduceIte] at hex ⊢
          have := ih (e.encrypt F data).1
            (st.update_traffic cid 0 (e.encrypt F data).2.length) ex (by
              simpa using hex)
          simp [this.1, this.2]
    | fromRemote data =>
      by_cases h0 : data.length = 0
      · simp [clientRelayRun, h0]
      · cases hd : e.decrypt F data with
        | none => simp [clientRelayRun, h0, hd]
        | some r =>
          by_cases h1 : r.2.length < data.length
          · simp [clientRelayRun, h0, hd, h1]
          · simp only [clientRelayRun, h0, h1, hd, if_false, reduceIte] at hex ⊢
            have := ih r.1 (st.update_traffic cid r.2.length 0) ex (by
              simpa using hex)
            simp [this.1, this.2]

/-- C4: on every exit path of the client relay loop (EOF, decrypt failure, or
the short-send raise) the `finally` block closes both sockets, but no exit
path ever invokes `close_connection`: the tunnel's record in the accounting
sink still has status `"active"` and no `end_time`, contradicting the claim
that the record is marked closed with an end timestamp. -/
theorem tunnel_close_not_finalized (F : List Nat → Nat) (cid host : String)
    (port now : Nat) (e : Encryptor) (st : ConnectionStats) (ops : List RelayOp)
    (ex : RelayExit)
    (hex : (clientHandleTcp F cid host port now e st ops).2.2 = some ex) :
    (Ev.closeUser ∈ (clientHandleTcp F cid host port now e st ops).2.1 ∧
      Ev.closeRemote ∈ (clientHandleTcp F cid host port now e st ops).2.1) ∧
    ∃ r, (clientHandleTcp F cid host port now e st ops).1.connections.lookup cid =
        some r ∧ r.status = "active" ∧ r.end_time = none := by
  constructor
  · exact clientRelayRun_closes F cid ops e (st.add_connection cid host port now) ex hex
  · have hst : statusOf (clientHandleTcp F cid host port now e st ops).1 cid =
        some ("active", none) := by
      unfold clientHandleTcp
      rw [clientRelayRun_statusOf]
      simp [statusOf, ConnectionStats.add_connection, lookup_dictInsert_self]
    unfold statusOf at hst
    cases hl : (clientHandleTcp F cid host port now e st ops).1.connections.lookup cid with
    | none => rw [hl] at hst; simp at hst
    | some r =>
      rw [hl] at hst
      simp at hst
      exact ⟨r, rfl, hst.1, hst.2⟩

/-- C4 witness: a concrete schedule that ends with EOF on the user socket. -/
theorem tunnel_close_not_finalized_witness :
    (Ev.closeUser ∈ (clientHandleTcp (fun _ => 0) "c" "h" 1 0
        (Encryptor.init "aes-256-cfb" (List.replicate 16 0) 0)
        ConnectionStats.reset [RelayOp.fromUser []]).2.1 ∧
      Ev.closeRemote ∈ (clientHandleTcp (fun _ => 0) "c" "h" 1 0
        (Encryptor.init "aes-256-cfb" (List.replicate 16 0) 0)
        ConnectionStats.reset [RelayOp.fromUser []]).2.1) ∧
    ∃ r, (clientHandleTcp (fun _ => 0) "c" "h" 1 0
        (Encryptor.init "aes-256-cfb" (List.replicate 16 0) 0)
        ConnectionStats.reset [RelayOp.fromUser []]).1.connections.lookup "c" =
        some r ∧ r.status = "active" ∧ r.end_time = none :=
  tunnel_close_not_finalized (fun _ => 0) "c" "h" 1 0
    (Encryptor.init "aes-256-cfb" (List.replicate 16 0) 0)
    ConnectionStats.reset [RelayOp.fromUser []] RelayExit.eof (by decide)

/-- Model of the loop body of `Socks5Server.handle_tcp` (`server3.py` lines
99-132).  The peer→origin leg decrypts and calls
`update_traffic(bytes_out=len(decrypted))`; the origin→peer leg encrypts and
calls `update_traffic(bytes_in=len(data))`. -/
def serverRelayRun (F : List Nat → Nat) (cid : String) :
    Encryptor → ConnectionStats → List ServerOp →
      ConnectionStats × List Ev × Option RelayExit
  | _, st, [] => (st, [], none)
  | e, st, op :: ops =>
    match op with
    | .fromPeer data =>
      if data.length = 0 then (st, [Ev.closeUser, Ev.closeRemote], some .eof)
      else
        match e.decrypt F data with
        | none => (st, [Ev.closeUser, Ev.closeRemote], some .decryptError)
        | some r =>
          if r.2.length < data.length then
            (st, [Ev.sendRemote r.2, Ev.closeUser, Ev.closeRemote], some .sendShort)
          else
            let st2 := st.update_traffic cid 0 r.2.length
            let rest := serverRelayRun F cid r.1 st2 ops
            (rest.1, Ev.sendRemote r.2 :: rest.2.1, rest.2.2)
    | .fromOrigin data =>
      if data.length = 0 then (st, [Ev.closeUser, Ev.closeRemote], some .eof)
      else
        let r := e.encrypt F data
        if r.2.length < data.length then
          (st, [Ev.sendUser r.2, Ev.closeUser, Ev.closeRemote], some .sendShort)
        else
          let st2 := st.update_traffic cid data.length 0
          let rest := serverRelayRun F cid r.1 st2 ops
          (rest.1, Ev.sendUser r.2 :: rest.2.1, rest.2.2)

/-- C3: the server relay's accounting calls are swapped relative to the claim
(and to the code's own comments).  A 3-byte plaintext received from the origin
is recorded as `bytes_in` (the code passes `bytes_in=len(data)` on the
origin→peer leg at `server3.py` line 129), and 2 bytes of plaintext delivered
to the origin are recorded as `bytes_out` (the code passes
`bytes_out=len(decrypted)` on the peer→origin leg at line 119) — the exact
opposite of the claimed convention. -/
theorem server_accounting_swapped :
    (((serverRelayRun (fun _ => 0) "c"
        (Encryptor.init "aes-256-cfb" (List.replicate 16 0) 0)
        (ConnectionStats.reset.add_connection "c" "h" 1 0)
        [ServerOp.fromOrigin [9, 9, 9]]).1.connections.lookup "c").map
        (fun r => (r.bytes_in, r.bytes_out)) = some (3, 0)) ∧
    (((serverRelayRun (fun _ => 0) "c"
        { method := "aes-256-cfb", ivSent := true, iv := List.replicate 16 0,
          cipherSR := List.replicate 16 0, decipher := some (List.replicate 16 0),
          encTable := [], decTable := [] }
        (ConnectionStats.reset.add_connection "c" "h" 1 0)
        [ServerOp.fromPeer [5, 5]]).1.connections.lookup "c").map
        (fun r => (r.bytes_in, r.bytes_out)) = some (0, 2)) := by
  constructor
  · decide
  · decide

/-! Model for C8: `local3.py` runs every `handle_connection` thread on the one
shared `SocksProxy` object, and line 118 stores the freshly created cipher
session in `self.encryptor`; `handle_tcp` reads `self.encryptor` on every
iteration (line 195).  The state below is that shared attribute; an op is an
interleaved step of one of the connection threads. -/

/-- The shared `self.encryptor` attribute of the single `SocksProxy` object. -/
structure SocksProxyState where
  encryptor : Option Encryptor
deriving Repr, DecidableEq

/-- A scheduled step of some connection thread: `handleConn iv header` is the
start of `handle_connection` for a new user connection (fresh session with its
own random IV, immediate encryption of that tunnel's address header);
`relayUser data` is one user→server iteration of an already established
tunnel's `handle_tcp`. -/
inductive ProxyOp where
  | handleConn (iv : List Nat) (header : List Nat)
  | relayUser (data : List Nat)
deriving Repr, DecidableEq

/-- Effect of one thread step on the shared attribute; returns the ciphertext
emitted to that thread's server socket. -/
def proxyStep (F : List Nat → Nat) (p : SocksProxyState) :
    ProxyOp → SocksProxyState × List Nat
  | .handleConn iv header =>
    let e := Encryptor.init "aes-256-cfb" iv 0
    let r := e.encrypt F header
    ({ encryptor := some r.1 }, r.2)
  | .relayUser data =>
    match p.encryptor with
    | none => (p, [])
    | some e =>
      let r := e.encrypt F data
      ({ encryptor := some r.1 }, r.2)

/-- Run an interleaving of thread steps, collecting the emissions. -/
def proxyRun (F : List Nat → Nat) :
    SocksProxyState → List ProxyOp → SocksProxyState × List (List Nat)
  | p, [] => (p, [])
  | p, op :: ops =>
    let r := proxyStep F p op
    let rest := proxyRun F r.1 ops
    (rest.1, r.2 :: rest.2)

/-- C8: cipher sessions are shared across concurrently active tunnels.  With
connection 1 established (IV of all-1 bytes), connection 2 established (IV of
all-2 bytes), and then one user→server relay iteration of connection 1, the
bytes emitted on connection 1's leg are the continuation of connection 2's
cipher stream — `self.encryptor` was overwritten — and differ from the
continuation of connection 1's own stream, contradicting the claim that a
session is never shared between concurrently active tunnels. -/
theorem client_shared_encryptor_cross_tunnel :
    ((proxyRun (fun sr => sr.headD 0) ⟨none⟩
        [ProxyOp.handleConn (List.replicate 16 1) [1, 0, 0, 0, 0, 0, 80],
          ProxyOp.handleConn (List.replicate 16 2) [1, 0, 0, 0, 0, 0, 80],
          ProxyOp.relayUser [0]]).2.getD 2 [] =
      (cfbEncrypt (fun sr => sr.headD 0)
        (cfbEncrypt (fun sr => sr.headD 0) (List.replicate 16 2)
          [1, 0, 0, 0, 0, 0, 80]).2 [0]).1) ∧
    (cfbEncrypt (fun sr => sr.headD 0)
        (cfbEncrypt (fun sr => sr.headD 0) (List.replicate 16 2)
          [1, 0, 0, 0, 0, 0, 80]).2 [0]).1 ≠
      (cfbEncrypt (fun sr => sr.headD 0)
        (cfbEncrypt (fun sr => sr.headD 0) (List.replicate 16 1)
          [1, 0, 0, 0, 0, 0, 80]).2 [0]).1 := by
  constructor
  · decide
  · decide

/-- The 10-byte SOCKS5 success reply `05 00 00 01` + `0.0.0.0` + port 0 built
at `local3.py` lines 151-152. -/
def reply10 : List Nat := [5, 0, 0, 1, 0, 0, 0, 0, 0, 0]

/-- Address parsing of `handle_connection` (`local3.py` lines 132-167): reads
the address per `addrtype` and the 2-byte port from the remaining `recv`
results and builds `data_to_send`, the plaintext address header.  `none`
models the paths that reach no tunnel: unsupported address type (log and
return) or a `struct`/`inet_ntoa`/index error on malformed reads (the raised
exception also ends the handler). -/
def parseAddr (atyp : Nat) (rest : List (List Nat)) : Option (List Nat) :=
  if atyp = 1 then
    match rest with
    | aip :: pb :: _ =>
      if aip.length = 4 then
        if pb.length = 2 then some (1 :: (aip ++ pb)) else none
      else none
    | _ => none
  else if atyp = 3 then
    match rest with
    | lb :: dom :: pb :: _ =>
      match lb with
      | n :: _ => if pb.length = 2 then some (3 :: n :: (dom ++ pb)) else none
      | [] => none
    | _ => none
  else none

/-- Model of `SocksProxy.handle_connection` (`local3.py` lines 114-178).
`recvs` lists the successive `recv` results of the user socket: the discarded
greeting, the 4-byte request, then the address pieces.  `connectOk` says
whether the TCP connect to the tunnel server succeeds (a failure raises
`socket.error`, which is caught, and the handler returns).  The trace records
sends to the user socket, the dial attempt, sends to the server socket, and
the closes run by the `finally` blocks. -/
def handleConnection (F : List Nat → Nat) (iv : List Nat) (a : Nat)
    (connectOk : Bool) (cid host : String) (uport now : Nat)
    (st0 : ConnectionStats) (recvs : List (List Nat)) (relayOps : List RelayOp) :
    List Ev × ConnectionStats :=
  match recvs with
  | [] => ([Ev.closeUser], st0)
  | [_] => ([Ev.sendUser [5, 0], Ev.closeUser], st0)
  | _ :: req :: rest =>
    if req.length < 4 then ([Ev.sendUser [5, 0], Ev.closeUser], st0)
    else if req.getD 1 0 ≠ 1 then ([Ev.sendUser [5, 0], Ev.closeUser], st0)
    else
      match parseAddr (req.getD 3 0) rest with
      | none => ([Ev.sendUser [5, 0], Ev.closeUser], st0)
      | some header =>
        if connectOk then
          let e := Encryptor.init "aes-256-cfb" iv a
          let r := e.encrypt F header
          let tcp := clientHandleTcp F cid host uport now r.1 st0 relayOps
          ([Ev.sendUser [5, 0], Ev.sendUser reply10, Ev.connectRemote,
              Ev.sendRemote r.2] ++ tcp.2.1 ++ [Ev.closeUser], tcp.1)
        else
          ([Ev.sendUser [5, 0], Ev.sendUser reply10, Ev.connectRemote,
              Ev.closeUser], st0)

/-- C5, amended: for a well-formed request whose `cmd` byte is not 1, the
front-end sends no further reply after the method-selection bytes `05 00`
(in particular no reply with code 07), logs, closes the user socket, and opens
no outbound TCP connection; the accounting state is untouched. -/
theorem socks_bad_command_closes (F : List Nat → Nat) (iv : List Nat) (a : Nat)
    (connectOk : Bool) (cid host : String) (uport now : Nat)
    (st0 : ConnectionStats) (g req : List Nat) (rest : List (List Nat))
    (relayOps : List RelayOp)
    (hlen : ¬ req.length < 4) (hcmd : req.getD 1 0 ≠ 1) :
    handleConnection F iv a connectOk cid host uport now st0 (g :: req :: rest)
        relayOps = ([Ev.sendUser [5, 0], Ev.closeUser], st0) := by
  simp only [handleConnection]
  rw [if_neg hlen, if_pos hcmd]

/-- C5 witness: a BIND request (`cmd = 2`) yields only `05 00` and a close. -/
theorem socks_bad_command_closes_witness :
    handleConnection (fun _ => 0) (List.replicate 16 0) 0 true "c" "h" 1 0
        ConnectionStats.reset [[5, 1, 0], [5, 2, 0, 1], [1, 2, 3, 4], [0, 80]]
        [] = ([Ev.sendUser [5, 0], Ev.closeUser], ConnectionStats.reset) :=
  socks_bad_command_closes (fun _ => 0) (List.replicate 16 0) 0 true "c" "h" 1 0
    ConnectionStats.reset [5, 1, 0] [5, 2, 0, 1] [[1, 2, 3, 4], [0, 80]] []
    (by decide) (by decide)

/-- C5 counterexample: on a `cmd = 2` request the code sends no reply whose
reply-code byte is 07 (no event in the trace carries such bytes), and it never
dials out; it merely logs `仅支持CONNECT模式` and returns, so the claimed
`07` (command not supported) reply is never produced. -/
theorem socks_bad_command_no_reply07 :
    ((handleConnection (fun _ => 0) (List.replicate 16 0) 0 true "c" "h" 1 0
        ConnectionStats.reset [[5, 1, 0], [5, 2, 0, 1], [1, 2, 3, 4], [0, 80]]
        []).1.any (fun ev =>
          match ev with
          | Ev.sendUser bs => bs.getD 1 0 == 7
          | _ => false)) = false ∧
    Ev.connectRemote ∉ (handleConnection (fun _ => 0) (List.replicate 16 0) 0
        true "c" "h" 1 0 ConnectionStats.reset
        [[5, 1, 0], [5, 2, 0, 1], [1, 2, 3, 4], [0, 80]] []).1 := by
  constructor
  · decide
  · decide

/-- C6: whenever the front-end dials the tunnel server, the trace up to the
dial is exactly the method reply `05 00` followed by the 10-byte success
reply: the success reply is sent before the dial, and no byte is sent to the
remote server before the dial (the remote socket does not yet exist). -/
theorem reply_before_dial (F : List Nat → Nat) (iv : List Nat) (a : Nat)
    (connectOk : Bool) (cid host : String) (uport now : Nat)
    (st0 : ConnectionStats) (recvs : List (List Nat)) (relayOps : List RelayOp)
    (h : Ev.connectRemote ∈ (handleConnection F iv a connectOk cid host uport
        now st0 recvs relayOps).1) :
    ∃ t, (handleConnection F iv a connectOk cid host uport now st0 recvs
        relayOps).1 = Ev.sendUser [5, 0] :: Ev.sendUser reply10 ::
        Ev.connectRemote :: t := by
  match recvs with
  | [] => simp [handleConnection] at h
  | [g] => simp [handleConnection] at h
  | g :: req :: rest =>
    simp only [handleConnection] at h ⊢
    by_cases hlen : req.length < 4
    · rw [if_pos hlen] at h
      simp at h
    · rw [if_neg hlen] at h ⊢
      by_cases hcmd : req.getD 1 0 ≠ 1
      · rw [if_pos hcmd] at h
        simp at h
      · rw [if_neg hcmd] at h ⊢
        cases hp : parseAddr (req.getD 3 0) rest with
        | none =>
          rw [hp] at h
          simp at h
        | some header =>
          dsimp only at h ⊢
          cases connectOk with
          | false => exact ⟨[Ev.closeUser], rfl⟩
          | true =>
            refine ⟨?_, ?_⟩
            rotate_left
            rw [if_pos rfl]
            dsimp only
            simp only [List.cons_append, List.nil_append]
            exact rfl

/-- C6 witness: a concrete CONNECT request reaches the dial. -/
theorem reply_before_dial_witness :
    ∃ t, (handleConnection (fun _ => 0) (List.replicate 16 0) 0 true "c" "h" 1 0
        ConnectionStats.reset [[5, 1, 0], [5, 1, 0, 1], [127, 0, 0, 1], [0, 80]]
        []).1 = Ev.sendUser [5, 0] :: Ev.sendUser reply10 ::
        Ev.connectRemote :: t :=
  reply_before_dial (fun _ => 0) (List.replicate 16 0) 0 true "c" "h" 1 0
    ConnectionStats.reset [[5, 1, 0], [5, 1, 0, 1], [127, 0, 0, 1], [0, 80]] []
    (by decide)

/-- C7: a fresh egress session's first `encrypt` emits the 16-byte IV followed
by the CFB ciphertext; a second call emits only ciphertext continuing the same
stream (the concatenation of the two emissions is `IV ++ cipher(d ++ d2)`);
and on the client's success path the first bytes sent to the tunnel server are
exactly the encryption of the encoded address header
`atyp :: addr_bytes ++ port_bytes` as the first plaintext. -/
theorem first_emission_wire_format (F : List Nat → Nat) (iv : List Nat) (a : Nat)
    (d d2 : List Nat) (cid host : String) (uport now : Nat)
    (st0 : ConnectionStats) (g aip pb : List Nat) (rest : List (List Nat))
    (relayOps : List RelayOp) (h4 : aip.length = 4) (h2 : pb.length = 2) :
    (((Encryptor.init "aes-256-cfb" iv a).encrypt F d).2 =
        iv ++ (cfbEncrypt F iv d).1 ∧
      ((((Encryptor.init "aes-256-cfb" iv a).encrypt F d).1).encrypt F d2).2 =
        (cfbEncrypt F (cfbEncrypt F iv d).2 d2).1 ∧
      ((Encryptor.init "aes-256-cfb" iv a).encrypt F d).2 ++
          ((((Encryptor.init "aes-256-cfb" iv a).encrypt F d).1).encrypt F d2).2 =
        iv ++ (cfbEncrypt F iv (d ++ d2)).1) ∧
    ∃ t, (handleConnection F iv a true cid host uport now st0
        (g :: [5, 1, 0, 1] :: aip :: pb :: rest) relayOps).1 =
      Ev.sendUser [5, 0] :: Ev.sendUser reply10 :: Ev.connectRemote ::
        Ev.sendRemote (iv ++ (cfbEncrypt F iv (1 :: (aip ++ pb))).1) :: t := by
  constructor
  · refine ⟨?_, ?_, ?_⟩
    · simp [Encryptor.init, Encryptor.encrypt]
    · simp [Encryptor.init, Encryptor.encrypt]
    · simp [Encryptor.init, Encryptor.encrypt, cfbEncrypt_append]
  · have hp : parseAddr (([5, 1, 0, 1] : List Nat).getD 3 0) (aip :: pb :: rest) =
        some (1 :: (aip ++ pb)) := by
      show parseAddr 1 (aip :: pb :: rest) = _
      simp only [parseAddr, reduceIte]
      rw [if_pos h4, if_pos h2]
    have henc : (Encryptor.init "aes-256-cfb" iv a).encrypt F (1 :: (aip ++ pb)) =
        ({ method := "aes-256-cfb", ivSent := true, iv := iv,
            cipherSR := (cfbEncrypt F iv (1 :: (aip ++ pb))).2, decipher := none,
            encTable := [], decTable := [] },
          iv ++ (cfbEncrypt F iv (1 :: (aip ++ pb))).1) := by
      simp [Encryptor.init, Encryptor.encrypt]
    refine ⟨?_, ?_⟩
    rotate_left
    simp only [handleConnection]
    rw [if_neg (show ¬ (([5, 1, 0, 1] : List Nat).length < 4) by decide)]
    rw [if_neg (show ¬ (([5, 1, 0, 1] : List Nat).getD 1 0 ≠ 1) by decide)]
    rw [hp]
    dsimp only
    rw [if_pos trivial, henc]
    dsimp only
    simp only [List.cons_append, List.nil_append]
    exact rfl

/-- C7 witness: a concrete CONNECT to `1.2.3.4:80` with two encrypt calls. -/
theorem first_emission_wire_format_witness :
    (((Encryptor.init "aes-256-cfb" (List.replicate 16 0) 0).encrypt
          (fun _ => 0) [7]).2 =
        List.replicate 16 0 ++
          (cfbEncrypt (fun _ => 0) (List.replicate 16 0) [7]).1 ∧
      ((((Encryptor.init "aes-256-cfb" (List.replicate 16 0) 0).encrypt
          (fun _ => 0) [7]).1).encrypt (fun _ => 0) [8]).2 =
        (cfbEncrypt (fun _ => 0)
          (cfbEncrypt (fun _ => 0) (List.replicate 16 0) [7]).2 [8]).1 ∧
      ((Encryptor.init "aes-256-cfb" (List.replicate 16 0) 0).encrypt
          (fun _ => 0) [7]).2 ++
          ((((Encryptor.init "aes-256-cfb" (List.replicate 16 0) 0).encrypt
            (fun _ => 0) [7]).1).encrypt (fun _ => 0) [8]).2 =
        List.replicate 16 0 ++
          (cfbEncrypt (fun _ => 0) (List.replicate 16 0) ([7] ++ [8])).1) ∧
    ∃ t, (handleConnection (fun _ => 0) (List.replicate 16 0) 0 true "c" "h" 1 0
        ConnectionStats.reset
        [[5, 1, 0], [5, 1, 0, 1], [1, 2, 3, 4], [0, 80]] []).1 =
      Ev.sendUser [5, 0] :: Ev.sendUser reply10 :: Ev.connectRemote ::
        Ev.sendRemote (List.replicate 16 0 ++
          (cfbEncrypt (fun _ => 0) (List.replicate 16 0)
            (1 :: ([1, 2, 3, 4] ++ [0, 80]))).1) :: t :=
  first_emission_wire_format (fun _ => 0) (List.replicate 16 0) 0 [7] [8]
    "c" "h" 1 0 ConnectionStats.reset [5, 1, 0] [1, 2, 3, 4] [0, 80] [] []
    (by decide) (by decide)

theorem getTable_perm (a : Nat) : (getTable a).Perm (List.range 256) := by
  have key : ∀ (is : List Nat) (t : List Nat),
      (is.foldl (fun t i => sortPass a i t) t).Perm t := by
    intro is
    induction is with
    | nil => intro t; exact List.Perm.refl t
    | cons i is ih =>
      intro t
      have h1 : (sortPass a i t).Perm t := by
        unfold sortPass
        exact List.mergeSort_perm t _
      simp only [List.foldl_cons]
      exact (ih (sortPass a i t)).trans h1
  exact key _ _

theorem decTable_getD (enc : List Nat) (hp : enc.Perm (List.range 256))
    (b : Nat) (hb : b < 256) :
    (makeDecryptTable enc).getD (enc.getD b 0) 0 = b := by
  have hlen : enc.length = 256 := by simpa using hp.length_eq
  have hnd : enc.Nodup := hp.nodup_iff.2 (List.nodup_range 256)
  have hblt : b < enc.length := by omega
  rw [List.getD_eq_getElem enc 0 hblt]
  have hmemb : enc[b] ∈ enc := List.getElem_mem hblt
  have hclt : enc[b] < 256 := by simpa using hp.mem_iff.1 hmemb
  have hlen2 : enc[b] < (makeDecryptTable enc).length := by
    simpa [makeDecryptTable] using hclt
  rw [List.getD_eq_getElem (makeDecryptTable enc) 0 hlen2]
  simp only [makeDecryptTable, List.getElem_map, List.getElem_range]
  rw [if_pos hmemb]
  exact List.indexOf_getElem hnd b hblt

theorem encrypt_table (F : List Nat → Nat) (e : Encryptor)
    (hm : e.method ≠ "aes-256-cfb") (d : List Nat) :
    e.encrypt F d = (e, d.map (fun b => e.encTable.getD b 0)) := by
  simp only [Encryptor.encrypt]
  rw [if_neg hm]

theorem decrypt_table (F : List Nat → Nat) (e : Encryptor)
    (hm : e.method ≠ "aes-256-cfb") (d : List Nat) :
    e.decrypt F d = some (e, d.map (fun b => e.decTable.getD b 0)) := by
  simp only [Encryptor.decrypt]
  rw [if_neg hm]

/-- C10: for every sort seed `a` (the first little-endian u64 of
`md5(password)`, so for every password) the substitution table built by
`_get_table` is a permutation of the 256 byte values, and with any method
other than `"aes-256-cfb"` the `Encryptor` satisfies
`decrypt(encrypt(d)) = d` for every byte string `d`: translating by
`decrypt_table` inverts translating by `encrypt_table`. -/
theorem table_roundtrip (F : List Nat → Nat) (a : Nat) (m : String)
    (iv : List Nat) (d : List Nat) (hm : m ≠ "aes-256-cfb")
    (hd : ∀ b ∈ d, b < 256) :
    (getTable a).Perm (List.range 256) ∧
    (Encryptor.init m iv a).decrypt F
        (((Encryptor.init m iv a).encrypt F d).2) =
      some (Encryptor.init m iv a, d) := by
  refine ⟨getTable_perm a, ?_⟩
  have hmap : ∀ l : List Nat, (∀ b ∈ l, b < 256) →
      (l.map (fun b => (getTable a).getD b 0)).map
        (fun b => (makeDecryptTable (getTable a)).getD b 0) = l := by
    intro l
    induction l with
    | nil => intro _; rfl
    | cons x xs ih =>
      intro hl
      simp only [List.map_cons]
      rw [decTable_getD (getTable a) (getTable_perm a) x (hl x (by simp)),
        ih (fun b hb => hl b (by simp [hb]))]
  have hmethod : (Encryptor.init m iv a).method = m := by
    simp only [Encryptor.init]
    rw [if_neg hm]
  have henc2 : (Encryptor.init m iv a).encTable = getTable a := by
    simp only [Encryptor.init]
    rw [if_neg hm]
  have hdec2 : (Encryptor.init m iv a).decTable =
      makeDecryptTable (getTable a) := by
    simp only [Encryptor.init]
    rw [if_neg hm]
  have hm2 : (Encryptor.init m iv a).method ≠ "aes-256-cfb" := by
    rw [hmethod]; exact hm
  rw [encrypt_table F _ hm2 d]
  dsimp only
  rw [decrypt_table F _ hm2 _]
  simp only [henc2, hdec2]
  rw [hmap d hd]

/-- C10 witness: the table cipher round-trips the byte string `[3, 200]`. -/
theorem table_roundtrip_witness :
    (getTable 0).Perm (List.range 256) ∧
    (Encryptor.init "table" [] 0).decrypt (fun _ => 0)
        (((Encryptor.init "table" [] 0).encrypt (fun _ => 0) [3, 200]).2) =
      some (Encryptor.init "table" [] 0, [3, 200]) :=
  table_roundtrip (fun _ => 0) 0 "table" [] [3, 200] (by decide) (by decide)

end JumpTiger
